import Mathlib

/-!
Verification of the LendingEscrow rental engine (repository `subToken`).

The contract source (embedded in `src/contracts/test/SubscriptionToken.test.js`
after the test code) contains two conflicting duplicate implementations of the
session-settlement policy:

* the first, "simple" policy (bounded duration, `endSession` only at or after
  `endTime`, no proration) — functions `createListing`, `updateListing`,
  `cancelListing`, `startSession`, `endSession` below;
* the second, proration-enabled variant (unbounded duration, early closure
  with a recomputed settlement) — functions suffixed `V2` below, plus
  `_distributePayment` and `getActiveListings`, which exist only in that
  variant.

The embedding models EVM semantics shallowly: `uint256` values are `Nat`
with Solidity 0.8 checked multiplication made explicit (`mul256` fails with
`Overflow` at `2 ^ 256` instead of wrapping); a reverting call is an
`Except.error` that discards every intermediate write, which is exactly the
all-or-nothing transaction semantics of the contract (so a failed call leaves
listings, sessions, token balances and ETH balances unchanged by
construction).  ERC1155 transfers check operator approval and balance as the
token contract does; `payable(x).transfer` fails when the contract's ETH
balance is insufficient.  Additions on counters and availability are modeled
on unbounded `Nat`: in Solidity they are checked and would revert at
`2 ^ 256`, a bound no claim under consideration exercises.
-/

namespace SubToken

abbrev Addr := Nat

def BASIS_POINTS : Nat := 10000

def UINT256 : Nat := 2 ^ 256

/-- Errors: one constructor per distinct `require` message / revert cause. -/
inductive Err where
  | MustListAtLeastOneUnit
  | PriceMustBePositive
  | DurationBelowMinimum
  | DurationExceedsMaximum
  | InvalidDurationRange
  | InsufficientBalance
  | NotApprovedForTransfer
  | NotTheLender
  | ListingNotActive
  | SessionNotActive
  | SessionNotYetEnded
  | MustRentAtLeastOneUnit
  | NotEnoughUnitsAvailable
  | DurationMustBePositive
  | InsufficientPayment
  | Overflow
  | SystemPaused
  | NotAuthorized
  | CannotReduceBelowRented
  | ETHTransferFailed
  | InsufficientValue
deriving Repr, DecidableEq

/-- The `Listing` struct.  The proration variant's struct omits the
`totalUnits`, duration-bound and `createdAt` fields; its constructor below
fills them with placeholder values that its own code never reads. -/
structure Listing where
  lender : Addr
  tokenId : Nat
  pricePerUnit : Nat
  availableUnits : Nat
  totalUnits : Nat
  minDuration : Nat
  maxDuration : Nat
  createdAt : Nat
  isActive : Bool
deriving Repr, DecidableEq

instance : Inhabited Listing := ⟨⟨0, 0, 0, 0, 0, 0, 0, 0, false⟩⟩

/-- The `Session` struct.  The proration variant's struct omits `totalPaid`;
its constructor below stores 0 there and its `endSession` recomputes the paid
amount from the listing price instead. -/
structure Session where
  borrower : Addr
  listingId : Nat
  units : Nat
  startTime : Nat
  endTime : Nat
  totalPaid : Nat
  isActive : Bool
deriving Repr, DecidableEq

instance : Inhabited Session := ⟨⟨0, 0, 0, 0, 0, 0, false⟩⟩

/-- Engine state: contract storage plus the ERC1155 token ledger and the ETH
ledger it interacts with.  `escrowAddr` is `address(this)`, `owner` the
`Ownable` owner. -/
structure State where
  listings : Nat → Listing
  sessions : Nat → Session
  listingCounter : Nat
  sessionCounter : Nat
  platformFee : Nat
  minRentalDuration : Nat
  maxRentalDuration : Nat
  platformWallet : Addr
  escrowAddr : Addr
  owner : Addr
  paused : Bool
  balances : Addr → Nat → Nat
  approvals : Addr → Addr → Bool
  eth : Addr → Nat

/-- Solidity 0.8 checked multiplication: reverts instead of wrapping. -/
def mul256 (a b : Nat) : Except Err Nat :=
  if a * b < UINT256 then .ok (a * b) else .error .Overflow

/-- Pointwise update of a (holder, tokenId) balance map. -/
def updBal (b : Addr → Nat → Nat) (h : Addr) (id v : Nat) : Addr → Nat → Nat :=
  fun x t => if x = h ∧ t = id then v else b x t

/-- Pointwise update of an ETH balance map. -/
def updEth (e : Addr → Nat) (a : Addr) (v : Nat) : Addr → Nat :=
  fun x => if x = a then v else e x

/-- Pointwise update of the listings map. -/
def updListing (s : State) (i : Nat) (l : Listing) : State :=
  { s with listings := fun j => if j = i then l else s.listings j }

/-- Pointwise update of the sessions map. -/
def updSession (s : State) (i : Nat) (x : Session) : State :=
  { s with sessions := fun j => if j = i then x else s.sessions j }

/-- ERC1155 `safeTransferFrom` as called by the escrow contract: `caller` is
the `msg.sender` the token contract sees (the escrow address for every call
the engine makes); authorization requires `caller == frm` or operator
approval; the balance check rejects partial transfers. -/
def safeTransferFrom (s : State) (caller frm dst : Addr) (id amt : Nat) :
    Except Err State :=
  if caller = frm ∨ s.approvals frm caller = true then
    if s.balances frm id < amt then .error .InsufficientBalance
    else
      let b1 := updBal s.balances frm id (s.balances frm id - amt)
      .ok { s with balances := updBal b1 dst id (b1 dst id + amt) }
  else .error .NotApprovedForTransfer

/-- `payable(to).transfer(amt)` executed by the contract: moves ETH out of
the contract balance, failing (and thus reverting the whole call) when the
contract does not hold `amt`. -/
def contractSend (s : State) (dst : Addr) (amt : Nat) : Except Err State :=
  if s.eth s.escrowAddr < amt then .error .ETHTransferFailed
  else
    let e1 := updEth s.eth s.escrowAddr (s.eth s.escrowAddr - amt)
    .ok { s with eth := updEth e1 dst (e1 dst + amt) }

/-- Deposit of `msg.value` at the entry of a payable call: the EVM moves the
value from the caller to the contract before the body runs. -/
def payValue (s : State) (caller : Addr) (v : Nat) : Except Err State :=
  if s.eth caller < v then .error .InsufficientValue
  else
    let e1 := updEth s.eth caller (s.eth caller - v)
    .ok { s with eth := updEth e1 s.escrowAddr (e1 s.escrowAddr + v) }

/-- The fee split computed by `_distributePayment` (and, with the same
expressions inline, by the simple-policy `startSession`):
`platformAmount = (amount * platformFee) / 10000` with checked
multiplication, `lenderAmount = amount - platformAmount`. -/
def feeSplit (amount fee : Nat) : Except Err (Nat × Nat) :=
  match mul256 amount fee with
  | .error e => .error e
  | .ok m => .ok (m / BASIS_POINTS, amount - m / BASIS_POINTS)

/-- Simple-policy `createListing(tokenId, pricePerUnit, units, minDuration,
maxDuration)` (modifier `whenNotPaused`): validates quantity, price and the
duration bounds against the global limits, escrows `units` via the token
contract (which enforces approval and sufficient balance), then records the
listing under the next monotonic id. -/
def createListing (s : State) (caller : Addr)
    (tokenId pricePerUnit units minDuration maxDuration now : Nat) :
    Except Err State :=
  if s.paused then .error .SystemPaused
  else if units = 0 then .error .MustListAtLeastOneUnit
  else if pricePerUnit = 0 then .error .PriceMustBePositive
  else if minDuration < s.minRentalDuration then .error .DurationBelowMinimum
  else if s.maxRentalDuration < maxDuration then .error .DurationExceedsMaximum
  else if maxDuration < minDuration then .error .InvalidDurationRange
  else
    match safeTransferFrom s s.escrowAddr caller s.escrowAddr tokenId units with
    | .error e => .error e
    | .ok s1 =>
      let listingId := s1.listingCounter + 1
      .ok { updListing s1 listingId
              ⟨caller, tokenId, pricePerUnit, units, units,
               minDuration, maxDuration, now, true⟩
            with listingCounter := listingId }

/-- Simple-policy `updateListing` (modifiers `onlyLender`,
`onlyActiveListing`, `whenNotPaused`): re-validates price and duration
bounds, refuses to shrink `totalUnits` below the currently rented quantity,
pulls the delta from the lender when growing, and rewrites the listing with
`availableUnits = newAvailableUnits - rentedUnits`,
`totalUnits = newAvailableUnits`. -/
def updateListing (s : State) (caller : Addr)
    (listingId newPricePerUnit newAvailableUnits newMinDuration newMaxDuration : Nat) :
    Except Err State :=
  if (s.listings listingId).lender ≠ caller then .error .NotTheLender
  else if (s.listings listingId).isActive = false then .error .ListingNotActive
  else if s.paused then .error .SystemPaused
  else if newPricePerUnit = 0 then .error .PriceMustBePositive
  else if newMinDuration < s.minRentalDuration then .error .DurationBelowMinimum
  else if s.maxRentalDuration < newMaxDuration then .error .DurationExceedsMaximum
  else if newMaxDuration < newMinDuration then .error .InvalidDurationRange
  else
    let listing := s.listings listingId
    let rentedUnits := listing.totalUnits - listing.availableUnits
    if newAvailableUnits < rentedUnits then .error .CannotReduceBelowRented
    else
      match (if listing.totalUnits < newAvailableUnits then
               safeTransferFrom s s.escrowAddr caller s.escrowAddr
                 listing.tokenId (newAvailableUnits - listing.totalUnits)
             else .ok s) with
      | .error e => .error e
      | .ok s1 =>
        .ok (updListing s1 listingId
              { listing with
                pricePerUnit := newPricePerUnit
                availableUnits := newAvailableUnits - rentedUnits
                totalUnits := newAvailableUnits
                minDuration := newMinDuration
                maxDuration := newMaxDuration })

/-- Simple-policy `cancelListing` (modifiers `onlyLender`,
`onlyActiveListing`; deliberately no pause guard): marks the listing
inactive, then returns the not-yet-rented `availableUnits` to the lender
from escrow custody; units out on open sessions are not touched. -/
def cancelListing (s : State) (caller : Addr) (listingId : Nat) :
    Except Err State :=
  if (s.listings listingId).lender ≠ caller then .error .NotTheLender
  else if (s.listings listingId).isActive = false then .error .ListingNotActive
  else
    let listing := s.listings listingId
    let s1 := updListing s listingId { listing with isActive := false }
    if 0 < listing.availableUnits then
      safeTransferFrom s1 s1.escrowAddr s1.escrowAddr caller
        listing.tokenId listing.availableUnits
    else .ok s1

/-- Simple-policy `startSession(listingId, units, duration)` (payable;
modifiers `nonReentrant`, `whenNotPaused`, `onlyActiveListing`): validates
availability and the listing's duration bounds, computes
`totalCost = pricePerUnit * units * duration` with checked multiplication,
requires `msg.value ≥ totalCost`, pays the fee split to lender and platform,
refunds the excess, records the session with `endTime = now + duration` and
`totalPaid = totalCost`, decrements `availableUnits`, and hands the units to
the borrower from escrow custody. -/
def startSession (s0 : State) (caller : Addr)
    (listingId units duration p now : Nat) : Except Err State :=
  match payValue s0 caller p with
  | .error e => .error e
  | .ok s =>
    if s.paused then .error .SystemPaused
    else if (s.listings listingId).isActive = false then .error .ListingNotActive
    else
      let listing := s.listings listingId
      if units = 0 then .error .MustRentAtLeastOneUnit
      else if listing.availableUnits < units then .error .NotEnoughUnitsAvailable
      else if duration < listing.minDuration then .error .DurationBelowMinimum
      else if listing.maxDuration < duration then .error .DurationExceedsMaximum
      else
        match mul256 listing.pricePerUnit units with
        | .error e => .error e
        | .ok pu =>
          match mul256 pu duration with
          | .error e => .error e
          | .ok totalCost =>
            if p < totalCost then .error .InsufficientPayment
            else
              match feeSplit totalCost s.platformFee with
              | .error e => .error e
              | .ok (feeAmount, lenderAmount) =>
                match contractSend s listing.lender lenderAmount with
                | .error e => .error e
                | .ok s1 =>
                  match (if 0 < feeAmount then
                           contractSend s1 s1.platformWallet feeAmount
                         else .ok s1) with
                  | .error e => .error e
                  | .ok s2 =>
                    match (if totalCost < p then
                             contractSend s2 caller (p - totalCost)
                           else .ok s2) with
                    | .error e => .error e
                    | .ok s3 =>
                      let sessionId := s3.sessionCounter + 1
                      let s4 := { updSession s3 sessionId
                                    ⟨caller, listingId, units, now,
                                     now + duration, totalCost, true⟩
                                  with sessionCounter := sessionId }
                      let s5 := updListing s4 listingId
                        { listing with
                          availableUnits := listing.availableUnits - units }
                      safeTransferFrom s5 s5.escrowAddr s5.escrowAddr caller
                        listing.tokenId units

/-- Simple-policy `endSession(sessionId)` (modifiers `nonReentrant`,
`onlyActiveSession`): requires `now ≥ endTime` (`SessionNotYetEnded`
otherwise), marks the session inactive, transfers `units` from the caller
back to the listing's lender through the token contract, and, if the listing
is still active, restores its `availableUnits`.  Note the source performs no
caller-identity check here: the transfer is simply drawn from
`msg.sender`. -/
def endSession (s : State) (caller : Addr) (sessionId now : Nat) :
    Except Err State :=
  if (s.sessions sessionId).isActive = false then .error .SessionNotActive
  else
    let session := s.sessions sessionId
    if now < session.endTime then .error .SessionNotYetEnded
    else
      let s1 := updSession s sessionId { session with isActive := false }
      let listing := s1.listings session.listingId
      match safeTransferFrom s1 s1.escrowAddr caller listing.lender
              listing.tokenId session.units with
      | .error e => .error e
      | .ok s2 =>
        if listing.isActive then
          .ok (updListing s2 session.listingId
                { listing with
                  availableUnits := listing.availableUnits + session.units })
        else .ok s2

/-- Proration-variant `_distributePayment(lender, amount)`: splits `amount`
by `platformFee` basis points, sends the platform share then the lender
share, skipping zero transfers. -/
def _distributePayment (s : State) (lender : Addr) (amount : Nat) :
    Except Err State :=
  match feeSplit amount s.platformFee with
  | .error e => .error e
  | .ok (platformAmount, lenderAmount) =>
    match (if 0 < platformAmount then
             contractSend s s.platformWallet platformAmount
           else .ok s) with
    | .error e => .error e
    | .ok s1 =>
      if 0 < lenderAmount then contractSend s1 lender lenderAmount
      else .ok s1

/-- Proration-variant `createListing(tokenId, pricePerUnit, units)`: checks
the lender's balance and operator approval explicitly but does not move any
tokens (this variant escrows units only at session start).  Fields absent
from this variant's `Listing` struct are filled with placeholders. -/
def createListingV2 (s : State) (caller : Addr)
    (tokenId pricePerUnit units : Nat) : Except Err State :=
  if units = 0 then .error .MustListAtLeastOneUnit
  else if pricePerUnit = 0 then .error .PriceMustBePositive
  else if s.balances caller tokenId < units then .error .InsufficientBalance
  else if s.approvals caller s.escrowAddr = false then
    .error .NotApprovedForTransfer
  else
    let listingId := s.listingCounter + 1
    .ok { updListing s listingId
            ⟨caller, tokenId, pricePerUnit, units, units, 0, 0, 0, true⟩
          with listingCounter := listingId }

/-- Proration-variant `startSession(listingId, units, duration)` (payable,
`nonReentrant`, `onlyActiveListing`): no listing-level duration bounds, only
`duration > 0`; pulls the units from the lender into escrow at session
start, decrements availability, records the session (this variant's struct
has no `totalPaid`, stored as 0), distributes the payment and refunds the
excess. -/
def startSessionV2 (s0 : State) (caller : Addr)
    (listingId units duration p now : Nat) : Except Err State :=
  match payValue s0 caller p with
  | .error e => .error e
  | .ok s =>
    if (s.listings listingId).isActive = false then .error .ListingNotActive
    else
      let listing := s.listings listingId
      if units = 0 then .error .MustRentAtLeastOneUnit
      else if listing.availableUnits < units then .error .NotEnoughUnitsAvailable
      else if duration = 0 then .error .DurationMustBePositive
      else
        match mul256 listing.pricePerUnit units with
        | .error e => .error e
        | .ok pu =>
          match mul256 pu duration with
          | .error e => .error e
          | .ok totalPrice =>
            if p < totalPrice then .error .InsufficientPayment
            else
              match safeTransferFrom s s.escrowAddr listing.lender
                      s.escrowAddr listing.tokenId units with
              | .error e => .error e
              | .ok s1 =>
                let s2 := updListing s1 listingId
                  { listing with
                    availableUnits := listing.availableUnits - units }
                let sessionId := s2.sessionCounter + 1
                let s3 := { updSession s2 sessionId
                              ⟨caller, listingId, units, now,
                               now + duration, 0, true⟩
                            with sessionCounter := sessionId }
                match _distributePayment s3 listing.lender totalPrice with
                | .error e => .error e
                | .ok s4 =>
                  if totalPrice < p then contractSend s4 caller (p - totalPrice)
                  else .ok s4

/-- Proration-variant `endSession(sessionId)` (`nonReentrant`): requires the
session active and the caller to be the session's borrower or the contract
owner; closes at any time, recomputes `totalPaid` and `amountOwed` from the
current listing price and the actually used duration, returns the units from
escrow to the lender, and — when closed early — transfers the "refund"
split to the lender and the platform wallet out of the contract's ETH
balance. -/
def endSessionV2 (s : State) (caller : Addr) (sessionId now : Nat) :
    Except Err State :=
  if (s.sessions sessionId).isActive = false then .error .SessionNotActive
  else
    let session := s.sessions sessionId
    if caller ≠ session.borrower ∧ caller ≠ s.owner then .error .NotAuthorized
    else
      let s1 := updSession s sessionId { session with isActive := false }
      let listing := s1.listings session.listingId
      let actualDuration :=
        if session.endTime < now then session.endTime - session.startTime
        else now - session.startTime
      match mul256 listing.pricePerUnit session.units with
      | .error e => .error e
      | .ok pu =>
        match mul256 pu (session.endTime - session.startTime) with
        | .error e => .error e
        | .ok totalPaid =>
          match mul256 pu actualDuration with
          | .error e => .error e
          | .ok amountOwed =>
            match safeTransferFrom s1 s1.escrowAddr s1.escrowAddr
                    listing.lender listing.tokenId session.units with
            | .error e => .error e
            | .ok s2 =>
              if amountOwed < totalPaid then
                let refundAmount := totalPaid - amountOwed
                match mul256 refundAmount s2.platformFee with
                | .error e => .error e
                | .ok rf =>
                  let platformRefund := rf / BASIS_POINTS
                  let lenderRefund := refundAmount - platformRefund
                  match (if 0 < lenderRefund then
                           contractSend s2 listing.lender lenderRefund
                         else .ok s2) with
                  | .error e => .error e
                  | .ok s3 =>
                    if 0 < platformRefund then
                      contractSend s3 s3.platformWallet platformRefund
                    else .ok s3
              else .ok s2

/-- Proration-variant `getActiveListings(offset, limit)`: scans ids
`offset + 1 .. min (offset + limit) listingCounter` and returns the listings
that are active, in id order. -/
def getActiveListings (s : State) (offset limit : Nat) : List Listing :=
  let lastId := if s.listingCounter < offset + limit then s.listingCounter
                else offset + limit
  ((List.range' (offset + 1) (lastId - offset)).filter
      (fun i => (s.listings i).isActive)).map (fun i => s.listings i)

/-- Contribution of session id `i` to the outstanding rented quantity of
listing `lid`: its `units` when it is an open session against `lid`. -/
def sessTerm (s : State) (lid i : Nat) : Nat :=
  if (s.sessions i).isActive = true ∧ (s.sessions i).listingId = lid then
    (s.sessions i).units
  else 0

/-- Sum of `unitsBorrowed` over all open sessions referencing listing
`lid` (session ids run from 1 to `sessionCounter`). -/
def openUnits (s : State) (lid : Nat) : Nat :=
  ∑ i in Finset.Icc 1 s.sessionCounter, sessTerm s lid i

/-- Initial state of the engine under the simple policy: freshly deployed
storage (both counters zero, no listings, no sessions), arbitrary token and
ETH ledgers. -/
def Init (s : State) : Prop :=
  s.listingCounter = 0 ∧ s.sessionCounter = 0 ∧
  (∀ i, s.listings i = default) ∧ (∀ i, s.sessions i = default)

/-- One successful state-mutating operation of the simple-policy engine. -/
inductive Step : State → State → Prop where
  | create (s s' : State) (caller tokenId price units minD maxD now : Nat)
      (h : createListing s caller tokenId price units minD maxD now = .ok s') :
      Step s s'
  | update (s s' : State) (caller listingId price avail minD maxD : Nat)
      (h : updateListing s caller listingId price avail minD maxD = .ok s') :
      Step s s'
  | cancel (s s' : State) (caller listingId : Nat)
      (h : cancelListing s caller listingId = .ok s') : Step s s'
  | start (s s' : State) (caller listingId units duration p now : Nat)
      (h : startSession s caller listingId units duration p now = .ok s') :
      Step s s'
  | close (s s' : State) (caller sessionId now : Nat)
      (h : endSession s caller sessionId now = .ok s') : Step s s'

/-- Reachability: a finite sequence of successful operations from an
initial state. -/
def Reachable (s s' : State) : Prop := Relation.ReflTransGen Step s s'

/-- The inductive invariant of the simple-policy engine.  Beyond the
availability accounting it records the bookkeeping facts that make it
inductive: active entities have allocated ids, and open sessions reference
allocated listings. -/
structure Inv (s : State) : Prop where
  sessIds : ∀ i, (s.sessions i).isActive = true →
    1 ≤ i ∧ i ≤ s.sessionCounter
  listIds : ∀ i, (s.listings i).isActive = true →
    1 ≤ i ∧ i ≤ s.listingCounter
  sessLid : ∀ i, (s.sessions i).isActive = true →
    (s.sessions i).listingId ≤ s.listingCounter
  bound : ∀ lid, (s.listings lid).availableUnits ≤ (s.listings lid).totalUnits
  account : ∀ lid, (s.listings lid).isActive = true →
    (s.listings lid).totalUnits - (s.listings lid).availableUnits =
      openUnits s lid

/-- Extract the state of a successful call (defaulting to `d` on error);
used only to name concrete run results in witnesses. -/
def okState (r : Except Err State) (d : State) : State :=
  match r with
  | .ok s => s
  | .error _ => d

/-- Concrete cast: the escrow contract is address 0, the `Ownable` owner is
address 1, the lender address 2, the borrower address 3, an unrelated
account address 4, the platform wallet address 5; the token batch id is 7. -/
def s0 : State where
  listings := fun _ => default
  sessions := fun _ => default
  listingCounter := 0
  sessionCounter := 0
  platformFee := 500
  minRentalDuration := 1
  maxRentalDuration := 1000
  platformWallet := 5
  escrowAddr := 0
  owner := 1
  paused := false
  balances := fun a t => if a = 2 ∧ t = 7 then 12 else 0
  approvals := fun o p => (o == 2 || o == 3) && p == 0
  eth := fun a => if a = 3 then 1000 else 0

/-- Scenario state after the lender lists 10 units of batch 7 at price 10
per unit per second, duration bounds [1, 1000], at time 0. -/
def s1 : State := okState (createListing s0 2 7 10 10 1 1000 0) s0

/-- Scenario state after the borrower rents 2 units for 7 seconds paying
150 (cost 140, refund 10) at time 0. -/
def s2 : State := okState (startSession s1 3 1 2 7 150 0) s1

/-- Scenario state after the borrower ends session 1 at time 7. -/
def s3 : State := okState (endSession s2 3 1 7) s2

/-- State after the lender (address 2, not the borrower and not the owner)
closes the borrower's session 1 at time 7 under the simple policy: the call
succeeds because that implementation has no caller authorization check. -/
def s3x : State := okState (endSession s2 2 1 7) s2

/-- Counterexample chain for the availability accounting: from `s2`, the
lender cancels listing 1, then the borrower ends session 1 at time 7 while
the listing is inactive. -/
def s2c : State := okState (cancelListing s2 2 1) s2

/-- Final state of the counterexample chain. -/
def s3c : State := okState (endSession s2c 3 1 7) s2c

/-- Initial state for the proration-variant scenarios: same cast, platform
fee 5000 basis points (50%). -/
def z0 : State := { s0 with platformFee := 5000 }

/-- Proration-variant scenario: lender lists 10 units at price 1. -/
def z1 : State := okState (createListingV2 z0 2 7 1 10) z0

/-- Proration-variant scenario: borrower rents 2 units for 10 seconds
paying exactly 20 at time 0. -/
def z2 : State := okState (startSessionV2 z1 3 1 2 10 20 0) z1

/-- Same proration-variant scenario but with the contract's ETH balance
prefunded with 100 (the contract has a `receive()` function, so third
parties can send it ETH at any time). -/
def z0b : State := { z0 with eth := fun a => if a = 3 then 1000 else if a = 0 then 100 else 0 }

/-- Prefunded variant after `createListingV2`. -/
def z1b : State := okState (createListingV2 z0b 2 7 1 10) z0b

/-- Prefunded variant after `startSessionV2`. -/
def z2b : State := okState (startSessionV2 z1b 3 1 2 10 20 0) z1b

/-- Prefunded variant after the borrower closes session 1 early, at time 5
of its 10-second window. -/
def z3b : State := okState (endSessionV2 z2b 3 1 5) z2b

theorem safeTransferFrom_ok {s s' : State} {c f d : Addr} {id amt : Nat}
    (h : safeTransferFrom s c f d id amt = .ok s') :
    (c = f ∨ s.approvals f c = true) ∧ amt ≤ s.balances f id ∧
      s' = { s with balances := (updBal
        (updBal s.balances f id (s.balances f id - amt)) d id
        (updBal s.balances f id (s.balances f id - amt) d id + amt)) } := by
  unfold safeTransferFrom at h
  split_ifs at h with h1 h2
  exact ⟨h1, by omega, (Except.ok.inj h).symm⟩

theorem safeTransferFrom_shape {s s' : State} {c f d : Addr} {id amt : Nat}
    (h : safeTransferFrom s c f d id amt = .ok s') :
    s' = { s with balances := s'.balances } := by
  rw [(safeTransferFrom_ok h).2.2]

theorem safeTransferFrom_sufficient (s : State) (c f d : Addr) (id amt : Nat)
    (hauth : c = f ∨ s.approvals f c = true) (hb : amt ≤ s.balances f id) :
    safeTransferFrom s c f d id amt = .ok { s with balances := (updBal
        (updBal s.balances f id (s.balances f id - amt)) d id
        (updBal s.balances f id (s.balances f id - amt) d id + amt)) } := by
  unfold safeTransferFrom
  rw [if_pos hauth, if_neg (by omega)]

theorem contractSend_ok {s s' : State} {d : Addr} {amt : Nat}
    (h : contractSend s d amt = .ok s') :
    amt ≤ s.eth s.escrowAddr ∧
      s' = { s with eth := (updEth
        (updEth s.eth s.escrowAddr (s.eth s.escrowAddr - amt)) d
        (updEth s.eth s.escrowAddr (s.eth s.escrowAddr - amt) d + amt)) } := by
  unfold contractSend at h
  split_ifs at h with h1
  exact ⟨by omega, (Except.ok.inj h).symm⟩

theorem contractSend_shape {s s' : State} {d : Addr} {amt : Nat}
    (h : contractSend s d amt = .ok s') : s' = { s with eth := s'.eth } := by
  rw [(contractSend_ok h).2]

theorem payValue_ok {s s' : State} {c : Addr} {v : Nat}
    (h : payValue s c v = .ok s') :
    v ≤ s.eth c ∧
      s' = { s with eth := (updEth
        (updEth s.eth c (s.eth c - v)) s.escrowAddr
        (updEth s.eth c (s.eth c - v) s.escrowAddr + v)) } := by
  unfold payValue at h
  split_ifs at h with h1
  exact ⟨by omega, (Except.ok.inj h).symm⟩

theorem payValue_shape {s s' : State} {c : Addr} {v : Nat}
    (h : payValue s c v = .ok s') : s' = { s with eth := s'.eth } := by
  rw [(payValue_ok h).2]

theorem mul256_ok {a b m : Nat} (h : mul256 a b = .ok m) :
    m = a * b ∧ a * b < UINT256 := by
  unfold mul256 at h
  split_ifs at h with h1
  exact ⟨(Except.ok.inj h).symm, h1⟩

theorem feeSplit_ok {a f x y : Nat} (h : feeSplit a f = .ok (x, y)) :
    a * f < UINT256 ∧ x = a * f / BASIS_POINTS ∧ y = a - a * f / BASIS_POINTS := by
  unfold feeSplit at h
  cases hm : mul256 a f with
  | error e => simp only [hm] at h; exact (Except.noConfusion h)
  | ok m =>
    simp only [hm] at h
    obtain ⟨rfl, hb⟩ := mul256_ok hm
    obtain ⟨h1, h2⟩ := Prod.mk.injEq _ _ _ _ ▸ Except.ok.inj h
    exact ⟨hb, h1.symm, h2.symm⟩

set_option maxHeartbeats 4000000 in
theorem startSession_ok {s s' : State} {caller : Addr}
    {lid units dur p now : Nat}
    (h : startSession s caller lid units dur p now = .ok s') :
    p ≤ s.eth caller ∧ s.paused = false ∧ (s.listings lid).isActive = true ∧
    units ≠ 0 ∧ units ≤ (s.listings lid).availableUnits ∧
    (s.listings lid).minDuration ≤ dur ∧ dur ≤ (s.listings lid).maxDuration ∧
    (s.listings lid).pricePerUnit * units < UINT256 ∧
    (s.listings lid).pricePerUnit * units * dur < UINT256 ∧
    (s.listings lid).pricePerUnit * units * dur ≤ p ∧
    (s.listings lid).pricePerUnit * units * dur * s.platformFee < UINT256 ∧
    ∃ sA s1 s2 s3,
      payValue s caller p = .ok sA ∧
      contractSend sA (s.listings lid).lender
        ((s.listings lid).pricePerUnit * units * dur -
          (s.listings lid).pricePerUnit * units * dur * s.platformFee /
            BASIS_POINTS) = .ok s1 ∧
      (if 0 < (s.listings lid).pricePerUnit * units * dur * s.platformFee /
            BASIS_POINTS then
          contractSend s1 s1.platformWallet
            ((s.listings lid).pricePerUnit * units * dur * s.platformFee /
              BASIS_POINTS)
        else .ok s1) = .ok s2 ∧
      (if (s.listings lid).pricePerUnit * units * dur < p then
          contractSend s2 caller
            (p - (s.listings lid).pricePerUnit * units * dur)
        else .ok s2) = .ok s3 ∧
      safeTransferFrom
        (updListing
          { updSession s3 (s3.sessionCounter + 1)
              ⟨caller, lid, units, now, now + dur,
                (s.listings lid).pricePerUnit * units * dur, true⟩
            with sessionCounter := s3.sessionCounter + 1 } lid
          { s.listings lid with
            availableUnits := (s.listings lid).availableUnits - units })
        s3.escrowAddr s3.escrowAddr caller (s.listings lid).tokenId units =
        .ok s' := by
  simp only [startSession] at h
  cases hpv : payValue s caller p with
  | error e => simp only [hpv] at h; exact (Except.noConfusion h)
  | ok sA =>
    simp only [hpv] at h
    obtain ⟨hpA, rfl⟩ := payValue_ok hpv
    dsimp only at h
    split_ifs at h with h1 h2 h3 h4 h5 h6
    cases hm1 : mul256 ((s.listings lid).pricePerUnit) units with
    | error e => simp only [hm1] at h; exact (Except.noConfusion h)
    | ok pu =>
      simp only [hm1] at h
      obtain ⟨rfl, hb1⟩ := mul256_ok hm1
      cases hm2 : mul256 ((s.listings lid).pricePerUnit * units) dur with
      | error e => simp only [hm2] at h; exact (Except.noConfusion h)
      | ok cost =>
        simp only [hm2] at h
        obtain ⟨rfl, hb2⟩ := mul256_ok hm2
        split_ifs at h with h7 h8
        · cases hfs : feeSplit ((s.listings lid).pricePerUnit * units * dur)
              s.platformFee with
          | error e => simp only [hfs] at h; exact (Except.noConfusion h)
          | ok fl =>
            obtain ⟨fa, la⟩ := fl
            simp only [hfs] at h
            obtain ⟨hb3, rfl, rfl⟩ := feeSplit_ok hfs
            cases hc1 : contractSend
                { s with eth := (updEth (updEth s.eth caller (s.eth caller - p))
                    s.escrowAddr
                    (updEth s.eth caller (s.eth caller - p) s.escrowAddr + p)) }
                (s.listings lid).lender
                ((s.listings lid).pricePerUnit * units * dur -
                  (s.listings lid).pricePerUnit * units * dur * s.platformFee /
                    BASIS_POINTS) with
            | error e => simp only [hc1] at h; exact (Except.noConfusion h)
            | ok s1 =>
              simp only [hc1] at h
              split_ifs at h with h9
              · cases hc2 : contractSend s1 s1.platformWallet
                    ((s.listings lid).pricePerUnit * units * dur *
                      s.platformFee / BASIS_POINTS) with
                | error e => simp only [hc2] at h; exact (Except.noConfusion h)
                | ok s2 =>
                  simp only [hc2] at h
                  cases hc3 : contractSend s2 caller
                      (p - (s.listings lid).pricePerUnit * units * dur) with
                  | error e => simp only [hc3] at h; exact (Except.noConfusion h)
                  | ok s3 =>
                    simp only [hc3] at h
                    refine ⟨by omega, by simpa using h1, by simpa using h2, h3,
                      by omega, by omega, by omega, hb1, hb2, by omega, hb3, ?_⟩
                    refine ⟨{ s with eth := (updEth (updEth s.eth caller (s.eth caller - p))
                        s.escrowAddr
                        (updEth s.eth caller (s.eth caller - p) s.escrowAddr + p)) }, s1, s2, s3, ?_, ?_, ?_, ?_, ?_⟩
                    · rfl
                    · exact hc1
                    · rw [if_pos h9]; exact hc2
                    · rw [if_pos h8]; exact hc3
                    · exact h
              · cases hc3 : contractSend s1 caller
                    (p - (s.listings lid).pricePerUnit * units * dur) with
                | error e => simp only [hc3] at h; exact (Except.noConfusion h)
                | ok s3 =>
                  simp only [hc3] at h
                  refine ⟨by omega, by simpa using h1, by simpa using h2, h3,
                    by omega, by omega, by omega, hb1, hb2, by omega, hb3, ?_⟩
                  refine ⟨{ s with eth := (updEth (updEth s.eth caller (s.eth caller - p))
                        s.escrowAddr
                        (updEth s.eth caller (s.eth caller - p) s.escrowAddr + p)) }, s1, s1, s3, ?_, ?_, ?_, ?_, ?_⟩
                  · rfl
                  · exact hc1
                  · rw [if_neg h9]
                  · rw [if_pos h8]; exact hc3
                  · exact h
        · cases hfs : feeSplit ((s.listings lid).pricePerUnit * units * dur)
              s.platformFee with
          | error e => simp only [hfs] at h; exact (Except.noConfusion h)
          | ok fl =>
            obtain ⟨fa, la⟩ := fl
            simp only [hfs] at h
            obtain ⟨hb3, rfl, rfl⟩ := feeSplit_ok hfs
            cases hc1 : contractSend
                { s with eth := (updEth (updEth s.eth caller (s.eth caller - p))
                    s.escrowAddr
                    (updEth s.eth caller (s.eth caller - p) s.escrowAddr + p)) }
                (s.listings lid).lender
                ((s.listings lid).pricePerUnit * units * dur -
                  (s.listings lid).pricePerUnit * units * dur * s.platformFee /
                    BASIS_POINTS) with
            | error e => simp only [hc1] at h; exact (Except.noConfusion h)
            | ok s1 =>
              simp only [hc1] at h
              split_ifs at h with h9
              · cases hc2 : contractSend s1 s1.platformWallet
                    ((s.listings lid).pricePerUnit * units * dur *
                      s.platformFee / BASIS_POINTS) with
                | error e => simp only [hc2] at h; exact (Except.noConfusion h)
                | ok s2 =>
                  simp only [hc2] at h
                  refine ⟨by omega, by simpa using h1, by simpa using h2, h3,
                    by omega, by omega, by omega, hb1, hb2, by omega, hb3, ?_⟩
                  refine ⟨{ s with eth := (updEth (updEth s.eth caller (s.eth caller - p))
                        s.escrowAddr
                        (updEth s.eth caller (s.eth caller - p) s.escrowAddr + p)) }, s1, s2, s2, ?_, ?_, ?_, ?_, ?_⟩
                  · rfl
                  · exact hc1
                  · rw [if_pos h9]; exact hc2
                  · rw [if_neg h8]
                  · exact h
              · dsimp only at h
                refine ⟨by omega, by simpa using h1, by simpa using h2, h3,
                  by omega, by omega, by omega, hb1, hb2, by omega, hb3, ?_⟩
                refine ⟨{ s with eth := (updEth (updEth s.eth caller (s.eth caller - p))
                        s.escrowAddr
                        (updEth s.eth caller (s.eth caller - p) s.escrowAddr + p)) }, s1, s1, s1, ?_, ?_, ?_, ?_, ?_⟩
                · rfl
                · exact hc1
                · rw [if_neg h9]
                · rw [if_neg h8]
                · exact h

/-- C3: for every total and fee rate below 10000 basis points, whenever the
payment split computes, it yields `platformAmount = total * fee / 10000` and
`lenderAmount = total - platformAmount`, and the two shares add up to the
total exactly — no unit of currency is lost or created by the rounding. -/
theorem C3_feeSplit_exact (total fee platformAmount lenderAmount : Nat)
    (hfee : fee < BASIS_POINTS)
    (h : feeSplit total fee = .ok (platformAmount, lenderAmount)) :
    platformAmount = total * fee / BASIS_POINTS ∧
    lenderAmount = total - platformAmount ∧
    platformAmount + lenderAmount = total := by
  unfold feeSplit at h
  cases hm : mul256 total fee with
  | error e => simp only [hm] at h; exact (Except.noConfusion h)
  | ok m =>
    simp only [hm] at h
    obtain ⟨hm1, _⟩ := mul256_ok hm
    obtain ⟨h1, h2⟩ := Prod.mk.injEq _ _ _ _ ▸ Except.ok.inj h
    subst hm1
    have hle : total * fee / BASIS_POINTS ≤ total := by
      calc total * fee / BASIS_POINTS ≤ total * BASIS_POINTS / BASIS_POINTS :=
            Nat.div_le_div_right (Nat.mul_le_mul_left _ hfee.le)
        _ = total := Nat.mul_div_cancel _ (by norm_num [BASIS_POINTS])
    omega

/-- C3 witness: the split of 140 at 500 basis points is (7, 133), summing
back to 140. -/
theorem C3_feeSplit_exact_witness :
    (7 : Nat) = 140 * 500 / BASIS_POINTS ∧ (133 : Nat) = 140 - 7 ∧
      7 + 133 = 140 :=
  C3_feeSplit_exact 140 500 7 133 (by norm_num [BASIS_POINTS]) (by rfl)

set_option maxHeartbeats 1000000 in
theorem createListing_ok {s s' : State} {caller : Addr}
    {tokenId price units minD maxD now : Nat}
    (h : createListing s caller tokenId price units minD maxD now = .ok s') :
    s.paused = false ∧ units ≠ 0 ∧ price ≠ 0 ∧
    s.minRentalDuration ≤ minD ∧ maxD ≤ s.maxRentalDuration ∧ minD ≤ maxD ∧
    (s.escrowAddr = caller ∨ s.approvals caller s.escrowAddr = true) ∧
    units ≤ s.balances caller tokenId ∧
    s' = { updListing
            { s with balances := (updBal
                (updBal s.balances caller tokenId (s.balances caller tokenId - units))
                s.escrowAddr tokenId
                (updBal s.balances caller tokenId (s.balances caller tokenId - units)
                  s.escrowAddr tokenId + units)) }
            (s.listingCounter + 1)
            ⟨caller, tokenId, price, units, units, minD, maxD, now, true⟩
          with listingCounter := s.listingCounter + 1 } := by
  simp only [createListing] at h
  split_ifs at h with h1 h2 h3 h4 h5 h6
  split at h
  · exact absurd h (by simp)
  · next s1 heq =>
    obtain ⟨ha, hb, rfl⟩ := safeTransferFrom_ok heq
    exact ⟨by simpa using h1, h2, h3, by omega, by omega, by omega, ha, hb,
      (Except.ok.inj h).symm⟩

theorem cancelListing_ok {s s' : State} {caller : Addr} {listingId : Nat}
    (h : cancelListing s caller listingId = .ok s') :
    (s.listings listingId).lender = caller ∧
    (s.listings listingId).isActive = true ∧
    ((0 < (s.listings listingId).availableUnits ∧
        (s.listings listingId).availableUnits ≤
          s.balances s.escrowAddr (s.listings listingId).tokenId ∧
        s' = { updListing s listingId
                { s.listings listingId with isActive := false }
              with balances := (updBal
                (updBal s.balances s.escrowAddr (s.listings listingId).tokenId
                  (s.balances s.escrowAddr (s.listings listingId).tokenId -
                    (s.listings listingId).availableUnits))
                caller (s.listings listingId).tokenId
                (updBal s.balances s.escrowAddr (s.listings listingId).tokenId
                  (s.balances s.escrowAddr (s.listings listingId).tokenId -
                    (s.listings listingId).availableUnits)
                  caller (s.listings listingId).tokenId +
                  (s.listings listingId).availableUnits)) }) ∨
      ((s.listings listingId).availableUnits = 0 ∧
        s' = updListing s listingId
          { s.listings listingId with isActive := false })) := by
  simp only [cancelListing] at h
  split_ifs at h with h1 h2 h3
  · obtain ⟨ha, hb, hs⟩ := safeTransferFrom_ok h
    refine ⟨by simpa using h1, by simpa using h2,
      .inl ⟨h3, by simpa [updListing] using hb, ?_⟩⟩
    exact hs
  · exact ⟨by simpa using h1, by simpa using h2, .inr ⟨by omega,
      (Except.ok.inj h).symm⟩⟩

set_option maxHeartbeats 1000000 in
theorem endSession_ok {s s' : State} {caller : Addr} {sid now : Nat}
    (h : endSession s caller sid now = .ok s') :
    (s.sessions sid).isActive = true ∧ (s.sessions sid).endTime ≤ now ∧
    ∃ s2, safeTransferFrom (updSession s sid { s.sessions sid with isActive := false })
        s.escrowAddr caller (s.listings (s.sessions sid).listingId).lender
        (s.listings (s.sessions sid).listingId).tokenId (s.sessions sid).units = .ok s2 ∧
      s' = (if (s.listings (s.sessions sid).listingId).isActive then
              updListing s2 (s.sessions sid).listingId
                { s.listings (s.sessions sid).listingId with
                  availableUnits :=
                    (s.listings (s.sessions sid).listingId).availableUnits +
                      (s.sessions sid).units }
            else s2) := by
  simp only [endSession] at h
  split_ifs at h with h1 h2 h3
  · split at h
    · exact absurd h (by simp)
    · next s2 heq =>
      have hact : (s.listings (s.sessions sid).listingId).isActive = true := by
        simpa [updSession] using h3
      refine ⟨by simpa using h1, by omega, s2, heq, ?_⟩
      rw [if_pos hact]
      exact (Except.ok.inj h).symm
  · split at h
    · exact absurd h (by simp)
    · next s2 heq =>
      have hact : ¬ (s.listings (s.sessions sid).listingId).isActive = true := by
        simpa [updSession] using h3
      refine ⟨by simpa using h1, by omega, s2, heq, ?_⟩
      rw [if_neg hact]
      exact (Except.ok.inj h).symm

/-- C7: ending a session succeeds at most once: after a successful
`endSession`, any further `endSession` on the same session id — by any
caller at any time — fails with `SessionNotActive`.  In the embedding a
failing call returns only the error (the `Except` model of a revert), so
the ledger, listing and session state after the failed second call are
exactly the state after the first successful call. -/
theorem C7_endSession_at_most_once (s s' : State) (caller : Addr)
    (sid now : Nat) (h : endSession s caller sid now = .ok s')
    (caller2 : Addr) (now2 : Nat) :
    endSession s' caller2 sid now2 = .error .SessionNotActive := by
  obtain ⟨h1, h2, s2, hst, hs'⟩ := endSession_ok h
  have hs2 : s2.sessions sid = { s.sessions sid with isActive := false } := by
    rw [safeTransferFrom_shape hst]
    simp [updSession]
  have hinact : (s'.sessions sid).isActive = false := by
    rw [hs']
    split <;> simp [updListing, hs2]
  unfold endSession
  simp [hinact]

/-- C7 witness: the borrower's successful close of session 1 at time 7
(`s2` to `s3`) makes a repeated close at time 8 fail with
`SessionNotActive`. -/
theorem C7_endSession_at_most_once_witness :
    endSession s3 3 1 8 = .error .SessionNotActive :=
  C7_endSession_at_most_once s2 s3 3 1 7 (by rfl) 3 8

/-- C1: for every active session under the simple (non-prorated) policy, a
call to `endSession` by the session's borrower strictly before `endTime`
fails with `SessionNotYetEnded` (in the `Except` model a revert, so
listings, sessions and ledger balances are untouched); a call at or after
`endTime` succeeds, marks the session inactive, ledger-transfers
`unitsBorrowed` from the borrower back to the lender of the associated
listing, and — exactly when that listing is still active — increments its
`availableUnits` by `unitsBorrowed`. -/
theorem C1_endSession_simple_policy (s : State) (sid now : Nat)
    (caller : Addr)
    (hact : (s.sessions sid).isActive = true)
    (hcaller : caller = (s.sessions sid).borrower)
    (happr : s.escrowAddr = caller ∨ s.approvals caller s.escrowAddr = true)
    (hbal : (s.sessions sid).units ≤
      s.balances caller (s.listings (s.sessions sid).listingId).tokenId)
    (hne : caller ≠ (s.listings (s.sessions sid).listingId).lender) :
    (now < (s.sessions sid).endTime →
      endSession s caller sid now = .error .SessionNotYetEnded) ∧
    ((s.sessions sid).endTime ≤ now →
      ∃ s', endSession s caller sid now = .ok s' ∧
        (s'.sessions sid).isActive = false ∧
        s'.balances (s.listings (s.sessions sid).listingId).lender
            (s.listings (s.sessions sid).listingId).tokenId =
          s.balances (s.listings (s.sessions sid).listingId).lender
            (s.listings (s.sessions sid).listingId).tokenId +
            (s.sessions sid).units ∧
        s'.balances caller (s.listings (s.sessions sid).listingId).tokenId =
          s.balances caller (s.listings (s.sessions sid).listingId).tokenId -
            (s.sessions sid).units ∧
        ((s.listings (s.sessions sid).listingId).isActive = true →
          (s'.listings (s.sessions sid).listingId).availableUnits =
            (s.listings (s.sessions sid).listingId).availableUnits +
              (s.sessions sid).units) ∧
        ((s.listings (s.sessions sid).listingId).isActive = false →
          s'.listings = s.listings)) := by
  constructor
  · intro hlt
    unfold endSession
    simp [hact, hlt]
  · intro hge
    have htr := safeTransferFrom_sufficient
      (updSession s sid { s.sessions sid with isActive := false })
      s.escrowAddr caller (s.listings (s.sessions sid).listingId).lender
      (s.listings (s.sessions sid).listingId).tokenId (s.sessions sid).units
      (by simpa [updSession] using happr)
      (by simpa [updSession] using hbal)
    cases hE : endSession s caller sid now with
    | error e =>
      exfalso
      simp only [endSession] at hE
      split_ifs at hE with h1 h2 h3
      · simp [hact] at h1
      · omega
      · split at hE
        · next err heq =>
          exact absurd (htr.symm.trans heq) (by simp)
        · next s2 heq =>
          exact (Except.noConfusion hE)
      · split at hE
        · next err heq =>
          exact absurd (htr.symm.trans heq) (by simp)
        · next s2 heq =>
          exact (Except.noConfusion hE)
    | ok s' =>
      obtain ⟨-, -, s2, heq, hs'⟩ := endSession_ok hE
      obtain ⟨hauth2, hbal2, rfl⟩ := safeTransferFrom_ok heq
      refine ⟨s', rfl, ?_, ?_, ?_, ?_, ?_⟩
      · rw [hs']
        split <;> simp [updListing, updSession]
      · rw [hs']
        split <;> simp [updListing, updSession, updBal, hne, Ne.symm hne]
      · rw [hs']
        split <;> simp [updListing, updSession, updBal, hne, Ne.symm hne]
      · intro hLact
        rw [hs', if_pos (by simpa using hLact)]
        simp [updListing, updSession]
      · intro hLinact
        rw [hs', if_neg (by simp [hLinact])]
        simp [updListing, updSession]

/-- C1 witness: Scenario C at scale — from `s2` (session 1 ends at time 7),
the borrower's close at time 6 fails with `SessionNotYetEnded`, and at time
7 it succeeds: 2 units return to the lender and the listing's
`availableUnits` is restored from 8 to 10. -/
theorem C1_endSession_simple_policy_witness :
    endSession s2 3 1 6 = .error .SessionNotYetEnded ∧
      ∃ s', endSession s2 3 1 7 = .ok s' ∧
        (s'.sessions 1).isActive = false ∧
        s'.balances (s2.listings (s2.sessions 1).listingId).lender
            (s2.listings (s2.sessions 1).listingId).tokenId =
          s2.balances (s2.listings (s2.sessions 1).listingId).lender
            (s2.listings (s2.sessions 1).listingId).tokenId +
            (s2.sessions 1).units :=
  ⟨(C1_endSession_simple_policy s2 1 6 3 (by rfl) (by rfl)
      (by right; rfl) (by decide) (by decide)).1 (by decide),
   match (C1_endSession_simple_policy s2 1 7 3 (by rfl) (by rfl)
      (by right; rfl) (by decide) (by decide)).2 (by decide) with
   | ⟨s', h1, h2, h3, _⟩ => ⟨s', h1, h2, h3⟩⟩

theorem optSend_shape {s1 s2 : State} {c : Prop} [Decidable c] {d : Addr}
    {amt : Nat} (h : (if c then contractSend s1 d amt else .ok s1) = .ok s2) :
    s2 = { s1 with eth := s2.eth } := by
  split_ifs at h
  · exact contractSend_shape h
  · cases Except.ok.inj h
    rfl

theorem updateListing_ok {s s' : State} {caller : Addr}
    {listingId price navail nmin nmax : Nat}
    (h : updateListing s caller listingId price navail nmin nmax = .ok s') :
    (s.listings listingId).lender = caller ∧
    (s.listings listingId).isActive = true ∧ s.paused = false ∧
    price ≠ 0 ∧ s.minRentalDuration ≤ nmin ∧ nmax ≤ s.maxRentalDuration ∧
    nmin ≤ nmax ∧
    (s.listings listingId).totalUnits -
      (s.listings listingId).availableUnits ≤ navail ∧
    ∃ b, s' = updListing { s with balances := b } listingId
      { s.listings listingId with
        pricePerUnit := price
        availableUnits := navail - ((s.listings listingId).totalUnits -
          (s.listings listingId).availableUnits)
        totalUnits := navail
        minDuration := nmin
        maxDuration := nmax } := by
  simp only [updateListing] at h
  split_ifs at h with h1 h2 h3 h4 h5 h6 h7 h8 h9
  · split at h
    · exact absurd h (by simp)
    · next s1 heq =>
      obtain ⟨ha, hb, rfl⟩ := safeTransferFrom_ok heq
      exact ⟨by simpa using h1, by simpa using h2, by simpa using h3, h4,
        by omega, by omega, by omega, by omega, _,
        (Except.ok.inj h).symm⟩
  · exact ⟨by simpa using h1, by simpa using h2, by simpa using h3, h4,
      by omega, by omega, by omega, by omega, s.balances,
      (Except.ok.inj h).symm⟩

theorem openUnits_eq_of (s s' : State)
    (hc : s'.sessionCounter = s.sessionCounter)
    (hf : ∀ i, 1 ≤ i → i ≤ s.sessionCounter → s'.sessions i = s.sessions i)
    (lid : Nat) : openUnits s' lid = openUnits s lid := by
  unfold openUnits
  rw [hc]
  refine Finset.sum_congr rfl ?_
  intro i hi
  rw [Finset.mem_Icc] at hi
  unfold sessTerm
  rw [hf i hi.1 hi.2]

theorem openUnits_update (s : State) (k : Nat) (x : Session)
    (hk1 : 1 ≤ k) (hk2 : k ≤ s.sessionCounter) (lid : Nat) :
    openUnits (updSession s k x) lid + sessTerm s lid k =
      openUnits s lid + sessTerm (updSession s k x) lid k := by
  have hmem : k ∈ Finset.Icc 1 s.sessionCounter := Finset.mem_Icc.mpr ⟨hk1, hk2⟩
  have h1 := Finset.add_sum_erase (Finset.Icc 1 s.sessionCounter)
    (sessTerm (updSession s k x) lid) hmem
  have h2 := Finset.add_sum_erase (Finset.Icc 1 s.sessionCounter)
    (sessTerm s lid) hmem
  have h3 : ∑ i in (Finset.Icc 1 s.sessionCounter).erase k,
      sessTerm (updSession s k x) lid i =
      ∑ i in (Finset.Icc 1 s.sessionCounter).erase k, sessTerm s lid i := by
    refine Finset.sum_congr rfl ?_
    intro i hi
    have hik : i ≠ k := (Finset.mem_erase.mp hi).1
    unfold sessTerm updSession
    simp [hik]
  have hgoal1 : openUnits (updSession s k x) lid =
      ∑ i in Finset.Icc 1 s.sessionCounter, sessTerm (updSession s k x) lid i :=
    rfl
  have hgoal2 : openUnits s lid =
      ∑ i in Finset.Icc 1 s.sessionCounter, sessTerm s lid i := rfl
  omega

theorem openUnits_snoc (s s' : State)
    (hc : s'.sessionCounter = s.sessionCounter + 1)
    (hf : ∀ i, 1 ≤ i → i ≤ s.sessionCounter → s'.sessions i = s.sessions i)
    (lid : Nat) :
    openUnits s' lid = openUnits s lid +
      sessTerm s' lid (s.sessionCounter + 1) := by
  unfold openUnits
  rw [hc, Finset.sum_Icc_succ_top (by omega)]
  congr 1
  refine Finset.sum_congr rfl ?_
  intro i hi
  rw [Finset.mem_Icc] at hi
  unfold sessTerm
  rw [hf i hi.1 hi.2]

theorem sessTerm_le_openUnits (s : State) (lid k : Nat)
    (hk1 : 1 ≤ k) (hk2 : k ≤ s.sessionCounter) :
    sessTerm s lid k ≤ openUnits s lid :=
  Finset.single_le_sum (fun i _ => Nat.zero_le _)
    (Finset.mem_Icc.mpr ⟨hk1, hk2⟩)

theorem inv_create {s s' : State} {caller : Addr}
    {tokenId price units minD maxD now : Nat} (hI : Inv s)
    (h : createListing s caller tokenId price units minD maxD now = .ok s') :
    Inv s' := by
  obtain ⟨hp, hu, hpr, hmn, hmx, hmm, hauth, hb, rfl⟩ := createListing_ok h
  have hsess : ∀ i, ((updListing { s with balances := (updBal
      (updBal s.balances caller tokenId (s.balances caller tokenId - units))
      s.escrowAddr tokenId
      (updBal s.balances caller tokenId (s.balances caller tokenId - units)
        s.escrowAddr tokenId + units)) } (s.listingCounter + 1)
        ⟨caller, tokenId, price, units, units, minD, maxD, now, true⟩).sessions i)
      = s.sessions i := fun i => rfl
  constructor
  · intro i hi
    exact hI.sessIds i hi
  · intro i hi
    by_cases hic : i = s.listingCounter + 1
    · subst hic
      exact ⟨by omega, Nat.le_refl _⟩
    · have hi' : (s.listings i).isActive = true := by
        simpa [updListing, hic] using hi
      have h2 := hI.listIds i hi'
      exact ⟨h2.1, Nat.le_succ_of_le h2.2⟩
  · intro i hi
    exact Nat.le_succ_of_le (hI.sessLid i hi)
  · intro lid
    by_cases hq : lid = s.listingCounter + 1
    · subst hq
      simp [updListing]
    · simpa [updListing, hq] using hI.bound lid
  · intro lid hact
    have hopen : openUnits { updListing { s with balances := (updBal
        (updBal s.balances caller tokenId (s.balances caller tokenId - units))
        s.escrowAddr tokenId
        (updBal s.balances caller tokenId (s.balances caller tokenId - units)
          s.escrowAddr tokenId + units)) } (s.listingCounter + 1)
          ⟨caller, tokenId, price, units, units, minD, maxD, now, true⟩
        with listingCounter := s.listingCounter + 1 } lid = openUnits s lid :=
      openUnits_eq_of _ _ rfl (fun i _ _ => rfl) lid
    rw [hopen]
    by_cases hq : lid = s.listingCounter + 1
    · subst hq
      have hz : openUnits s (s.listingCounter + 1) = 0 := by
        unfold openUnits
        refine Finset.sum_eq_zero ?_
        intro i _
        unfold sessTerm
        split_ifs with hcond
        · have := hI.sessLid i hcond.1
          omega
        · rfl
      rw [hz]
      simp [updListing]
    · have hact' : (s.listings lid).isActive = true := by
        simpa [updListing, hq] using hact
      have := hI.account lid hact'
      simpa [updListing, hq] using this

theorem inv_update {s s' : State} {caller : Addr}
    {listingId price navail nmin nmax : Nat} (hI : Inv s)
    (h : updateListing s caller listingId price navail nmin nmax = .ok s') :
    Inv s' := by
  obtain ⟨hl, hact, hp, hpr, hmn, hmx, hmm, hrent, b, rfl⟩ := updateListing_ok h
  constructor
  · intro i hi
    exact hI.sessIds i hi
  · intro i hi
    by_cases hic : i = listingId
    · subst hic
      exact hI.listIds i hact
    · exact hI.listIds i (by simpa [updListing, hic] using hi)
  · intro i hi
    exact hI.sessLid i hi
  · intro lid
    by_cases hq : lid = listingId
    · subst hq
      simp [updListing]
    · simpa [updListing, hq] using hI.bound lid
  · intro lid hactq
    have hopen : openUnits (updListing { s with balances := b } listingId
        { s.listings listingId with
          pricePerUnit := price
          availableUnits := navail - ((s.listings listingId).totalUnits -
            (s.listings listingId).availableUnits)
          totalUnits := navail
          minDuration := nmin
          maxDuration := nmax }) lid = openUnits s lid :=
      openUnits_eq_of _ _ rfl (fun i _ _ => rfl) lid
    rw [hopen]
    by_cases hq : lid = listingId
    · subst hq
      have hacc := hI.account lid hact
      have hbd := hI.bound lid
      simp only [updListing]
      simp
      omega
    · have hact' : (s.listings lid).isActive = true := by
        simpa [updListing, hq] using hactq
      simpa [updListing, hq] using hI.account lid hact'

theorem inv_cancel {s s' : State} {caller : Addr} {listingId : Nat}
    (hI : Inv s) (h : cancelListing s caller listingId = .ok s') : Inv s' := by
  obtain ⟨hl, hact, hcases⟩ := cancelListing_ok h
  have hshape : ∃ b, s' = updListing { s with balances := b } listingId
      { s.listings listingId with isActive := false } := by
    rcases hcases with ⟨hpos, hble, rfl⟩ | ⟨hz, rfl⟩
    · exact ⟨(updBal (updBal s.balances s.escrowAddr
          (s.listings listingId).tokenId
          (s.balances s.escrowAddr (s.listings listingId).tokenId -
            (s.listings listingId).availableUnits))
          caller (s.listings listingId).tokenId
          (updBal s.balances s.escrowAddr (s.listings listingId).tokenId
            (s.balances s.escrowAddr (s.listings listingId).tokenId -
              (s.listings listingId).availableUnits)
            caller (s.listings listingId).tokenId +
            (s.listings listingId).availableUnits)), rfl⟩
    · exact ⟨s.balances, rfl⟩
  obtain ⟨b, rfl⟩ := hshape
  constructor
  · intro i hi
    exact hI.sessIds i hi
  · intro i hi
    by_cases hic : i = listingId
    · subst hic
      simp [updListing] at hi
    · exact hI.listIds i (by simpa [updListing, hic] using hi)
  · intro i hi
    exact hI.sessLid i hi
  · intro lid
    by_cases hq : lid = listingId
    · subst hq
      have := hI.bound lid
      simp [updListing]
      omega
    · simpa [updListing, hq] using hI.bound lid
  · intro lid hactq
    have hopen : openUnits (updListing { s with balances := b } listingId
        { s.listings listingId with isActive := false }) lid =
        openUnits s lid := openUnits_eq_of _ _ rfl (fun i _ _ => rfl) lid
    rw [hopen]
    by_cases hq : lid = listingId
    · subst hq
      simp [updListing] at hactq
    · have hact' : (s.listings lid).isActive = true := by
        simpa [updListing, hq] using hactq
      simpa [updListing, hq] using hI.account lid hact'

set_option maxHeartbeats 4000000 in
theorem inv_start {s s' : State} {caller : Addr} {lid units dur p now : Nat}
    (hI : Inv s) (h : startSession s caller lid units dur p now = .ok s') :
    Inv s' := by
  obtain ⟨hp, hc0, hactv, hu0, huav, hmind, hmaxd, hb1, hb2, hple, hb3,
    sA, s1, s2, s3, hA, hc1, hc2, hc3, htr⟩ := startSession_ok h
  have e0 := payValue_shape hA
  have e1 := contractSend_shape hc1
  have e2 := optSend_shape hc2
  have e3 := optSend_shape hc3
  have e4 := safeTransferFrom_shape htr
  have hls : s3.listings = s.listings := by rw [e3, e2, e1, e0]
  have hss : s3.sessions = s.sessions := by rw [e3, e2, e1, e0]
  have hsc : s3.sessionCounter = s.sessionCounter := by rw [e3, e2, e1, e0]
  have hlc : s3.listingCounter = s.listingCounter := by rw [e3, e2, e1, e0]
  have hS'l : ∀ j, s'.listings j = if j = lid then
      { s.listings lid with
        availableUnits := (s.listings lid).availableUnits - units }
      else s.listings j := by
    intro j
    have h4 : s'.listings j = (if j = lid then
        { s.listings lid with
          availableUnits := (s.listings lid).availableUnits - units }
        else s3.listings j) := by rw [e4]; rfl
    rw [h4, hls]
  have hS's : ∀ j, s'.sessions j = if j = s.sessionCounter + 1 then
      ⟨caller, lid, units, now, now + dur,
        (s.listings lid).pricePerUnit * units * dur, true⟩
      else s.sessions j := by
    intro j
    have h4 : s'.sessions j = (if j = s3.sessionCounter + 1 then
        ⟨caller, lid, units, now, now + dur,
          (s.listings lid).pricePerUnit * units * dur, true⟩
        else s3.sessions j) := by rw [e4]; rfl
    rw [h4, hss, hsc]
  have hS'sc : s'.sessionCounter = s.sessionCounter + 1 := by
    have h4 : s'.sessionCounter = s3.sessionCounter + 1 := by rw [e4]; rfl
    rw [h4, hsc]
  have hS'lc : s'.listingCounter = s.listingCounter := by
    have h4 : s'.listingCounter = s3.listingCounter := by rw [e4]; rfl
    rw [h4, hlc]
  have hlidle := hI.listIds lid hactv
  constructor
  · intro i hi
    rw [hS's i] at hi
    by_cases hic : i = s.sessionCounter + 1
    · subst hic
      refine ⟨by omega, ?_⟩
      rw [hS'sc]
    · rw [if_neg hic] at hi
      have h5 := hI.sessIds i hi
      refine ⟨h5.1, ?_⟩
      rw [hS'sc]
      omega
  · intro i hi
    rw [hS'l i] at hi
    rw [hS'lc]
    by_cases hic : i = lid
    · subst hic
      exact hI.listIds i hactv
    · rw [if_neg hic] at hi
      exact hI.listIds i hi
  · intro i hi
    rw [hS's i] at hi ⊢
    rw [hS'lc]
    by_cases hic : i = s.sessionCounter + 1
    · rw [if_pos hic]
      exact hlidle.2
    · rw [if_neg hic] at hi ⊢
      exact hI.sessLid i hi
  · intro lidq
    rw [hS'l lidq]
    by_cases hq : lidq = lid
    · subst hq
      have := hI.bound lidq
      simp
      omega
    · rw [if_neg hq]
      exact hI.bound lidq
  · intro lidq hactq
    rw [hS'l lidq] at hactq ⊢
    have hopen := openUnits_snoc s s' hS'sc
      (fun i h1 h2 => by rw [hS's i, if_neg (by omega)]) lidq
    have hterm : sessTerm s' lidq (s.sessionCounter + 1) =
        if lidq = lid then units else 0 := by
      unfold sessTerm
      rw [hS's (s.sessionCounter + 1), if_pos rfl]
      by_cases hq : lidq = lid
      · simp [hq]
      · simp [hq]
        intro h'
        exact absurd h'.symm hq
    rw [hopen, hterm]
    by_cases hq : lidq = lid
    · subst hq
      rw [if_pos rfl] at hactq
      rw [if_pos rfl, if_pos rfl]
      have hacc := hI.account lidq hactv
      have hbd := hI.bound lidq
      show (s.listings lidq).totalUnits -
          ((s.listings lidq).availableUnits - units) = openUnits s lidq + units
      omega
    · rw [if_neg hq] at hactq
      rw [if_neg hq, if_neg hq]
      have hacc := hI.account lidq hactq
      omega

set_option maxHeartbeats 1000000 in
theorem inv_close {s s' : State} {caller : Addr} {sid now : Nat}
    (hI : Inv s) (h : endSession s caller sid now = .ok s') : Inv s' := by
  obtain ⟨hact, hge, s2, heq, hs'⟩ := endSession_ok h
  have e2 := safeTransferFrom_shape heq
  have hsid := hI.sessIds sid hact
  have h2s : ∀ j, s2.sessions j = (if j = sid then
      { s.sessions sid with isActive := false } else s.sessions j) := by
    intro j; rw [e2]; rfl
  have h2l : s2.listings = s.listings := by rw [e2]; rfl
  have h2sc : s2.sessionCounter = s.sessionCounter := by rw [e2]; rfl
  have h2lc : s2.listingCounter = s.listingCounter := by rw [e2]; rfl
  have hterm0 : sessTerm (updSession s sid
      { s.sessions sid with isActive := false })
      ((s.sessions sid).listingId) sid = 0 := by
    simp [sessTerm, updSession]
  have hterm0' : ∀ j, sessTerm (updSession s sid
      { s.sessions sid with isActive := false }) j sid = 0 := by
    intro j; simp [sessTerm, updSession]
  by_cases hLact : (s.listings (s.sessions sid).listingId).isActive = true
  · rw [if_pos hLact] at hs'
    have hfs' : ∀ j, s'.sessions j = (if j = sid then
        { s.sessions sid with isActive := false } else s.sessions j) := by
      intro j
      have h4 : s'.sessions j = s2.sessions j := by rw [hs']; rfl
      rw [h4, h2s j]
    have hfl : ∀ j, s'.listings j = (if j = (s.sessions sid).listingId then
        { s.listings (s.sessions sid).listingId with
          availableUnits := (s.listings (s.sessions sid).listingId).availableUnits
            + (s.sessions sid).units }
        else s.listings j) := by
      intro j
      have h4 : s'.listings j = (if j = (s.sessions sid).listingId then
          { s.listings (s.sessions sid).listingId with
            availableUnits := (s.listings (s.sessions sid).listingId).availableUnits
              + (s.sessions sid).units }
          else s2.listings j) := by rw [hs']; rfl
      rw [h4, h2l]
    have hfsc : s'.sessionCounter = s.sessionCounter := by rw [hs']; exact h2sc
    have hflc : s'.listingCounter = s.listingCounter := by rw [hs']; exact h2lc
    have hoU : ∀ j, openUnits s' j = openUnits (updSession s sid
        { s.sessions sid with isActive := false }) j := by
      intro j
      exact openUnits_eq_of (updSession s sid
        { s.sessions sid with isActive := false }) s' hfsc
        (fun i _ _ => hfs' i) j
    have hupd := fun j => openUnits_update s sid
      { s.sessions sid with isActive := false } hsid.1 hsid.2 j
    have htermS : sessTerm s ((s.sessions sid).listingId) sid =
        (s.sessions sid).units := by
      unfold sessTerm
      rw [if_pos ⟨hact, rfl⟩]
    have hle := sessTerm_le_openUnits s ((s.sessions sid).listingId) sid
      hsid.1 hsid.2
    rw [htermS] at hle
    constructor
    · intro i hi
      rw [hfs' i] at hi
      by_cases hic : i = sid
      · rw [if_pos hic] at hi
        simp at hi
      · rw [if_neg hic] at hi
        have h5 := hI.sessIds i hi
        refine ⟨h5.1, ?_⟩
        rw [hfsc]
        exact h5.2
    · intro i hi
      rw [hfl i] at hi
      rw [hflc]
      by_cases hic : i = (s.sessions sid).listingId
      · rw [if_pos hic] at hi
        rw [hic]
        exact hI.listIds _ hi
      · rw [if_neg hic] at hi
        exact hI.listIds i hi
    · intro i hi
      rw [hfs' i] at hi
      rw [hfs' i, hflc]
      by_cases hic : i = sid
      · rw [if_pos hic] at hi
        simp at hi
      · rw [if_neg hic] at hi ⊢
        exact hI.sessLid i hi
    · intro j
      rw [hfl j]
      by_cases hq : j = (s.sessions sid).listingId
      · rw [if_pos hq]
        have hacc := hI.account ((s.sessions sid).listingId) hLact
        have hb := hI.bound ((s.sessions sid).listingId)
        show (s.listings (s.sessions sid).listingId).availableUnits +
            (s.sessions sid).units ≤
          (s.listings (s.sessions sid).listingId).totalUnits
        omega
      · rw [if_neg hq]
        exact hI.bound j
    · intro j hja
      rw [hfl j] at hja
      rw [hfl j, hoU j]
      have hu := hupd j
      rw [hterm0' j] at hu
      by_cases hq : j = (s.sessions sid).listingId
      · rw [if_pos hq] at hja ⊢
        rw [hq] at hu ⊢
        rw [htermS] at hu
        have hacc := hI.account ((s.sessions sid).listingId) hLact
        show (s.listings (s.sessions sid).listingId).totalUnits -
            ((s.listings (s.sessions sid).listingId).availableUnits +
              (s.sessions sid).units) =
          openUnits (updSession s sid
            { s.sessions sid with isActive := false })
            ((s.sessions sid).listingId)
        omega
      · rw [if_neg hq] at hja ⊢
        have hacc := hI.account j hja
        have htermN : sessTerm s j sid = 0 := by
          unfold sessTerm
          rw [if_neg (fun hcond => hq (hcond.2.symm))]
        rw [htermN] at hu
        omega
  · rw [if_neg hLact] at hs'
    subst hs'
    have hoU : ∀ j, openUnits s' j = openUnits (updSession s sid
        { s.sessions sid with isActive := false }) j := by
      intro j
      exact openUnits_eq_of (updSession s sid
        { s.sessions sid with isActive := false }) s' h2sc
        (fun i _ _ => h2s i) j
    have hupd := fun j => openUnits_update s sid
      { s.sessions sid with isActive := false } hsid.1 hsid.2 j
    constructor
    · intro i hi
      rw [h2s i] at hi
      by_cases hic : i = sid
      · rw [if_pos hic] at hi
        simp at hi
      · rw [if_neg hic] at hi
        have h5 := hI.sessIds i hi
        refine ⟨h5.1, ?_⟩
        rw [h2sc]
        exact h5.2
    · intro i hi
      rw [h2l] at hi
      rw [h2lc]
      exact hI.listIds i hi
    · intro i hi
      rw [h2s i] at hi
      rw [h2s i, h2lc]
      by_cases hic : i = sid
      · rw [if_pos hic] at hi
        simp at hi
      · rw [if_neg hic] at hi ⊢
        exact hI.sessLid i hi
    · intro j
      rw [h2l]
      exact hI.bound j
    · intro j hja
      rw [h2l] at hja
      rw [h2l, hoU j]
      have hne : j ≠ (s.sessions sid).listingId := by
        intro he
        exact hLact (he ▸ hja)
      have hu := hupd j
      rw [hterm0' j] at hu
      have htermN : sessTerm s j sid = 0 := by
        unfold sessTerm
        rw [if_neg (fun hcond => hne (hcond.2.symm))]
      rw [htermN] at hu
      have hacc := hI.account j hja
      omega

theorem init_inv {s : State} (h : Init s) : Inv s := by
  obtain ⟨hlc, hsc, hls, hss⟩ := h
  constructor
  · intro i hi
    rw [hss i] at hi
    simp [default] at hi
  · intro i hi
    rw [hls i] at hi
    simp [default] at hi
  · intro i hi
    rw [hss i] at hi
    simp [default] at hi
  · intro lid
    rw [hls lid]
    exact Nat.le_refl _
  · intro lid hl
    rw [hls lid] at hl
    simp [default] at hl

theorem inv_step {s s' : State} (hI : Inv s) (h : Step s s') : Inv s' := by
  cases h with
  | create caller tokenId price units minD maxD now h =>
    exact inv_create hI h
  | update caller listingId price avail minD maxD h =>
    exact inv_update hI h
  | cancel caller listingId h => exact inv_cancel hI h
  | start caller listingId units duration p now h => exact inv_start hI h
  | close caller sessionId now h => exact inv_close hI h

theorem reachable_inv {s s' : State} (h0 : Init s) (h : Reachable s s') :
    Inv s' := by
  induction h with
  | refl => exact init_inv h0
  | tail hr hstep ih => exact inv_step ih hstep

set_option maxHeartbeats 4000000 in
/-- C2: a `startSession(listingId, units, duration)` call with payment `p`
that succeeds necessarily had: listing active, `0 < units ≤
availableUnits`, duration within the listing bounds, `totalCost =
pricePerUnit * units * duration` computed without overflowing `uint256`,
and `p ≥ totalCost`; and its effects are exactly: the fee split of
`totalCost` paid to lender and platform, the excess `p - totalCost`
returned to the borrower (so the borrower nets `-totalCost`), the
listing's `availableUnits` decremented by `units`, a new session recorded
under the next id with `endTime = now + duration` and `amountPaid =
totalCost`, and `units` moved from engine custody to the borrower.  A
failing call is an `Except.error`, which in this embedding of the EVM
revert changes no state at all. -/
theorem C2_startSession_characterization (s s' : State) (caller : Addr)
    (lid units dur p now : Nat)
    (h : startSession s caller lid units dur p now = .ok s')
    (hd1 : caller ≠ (s.listings lid).lender)
    (hd2 : caller ≠ s.platformWallet)
    (hd3 : caller ≠ s.escrowAddr)
    (hd4 : (s.listings lid).lender ≠ s.platformWallet)
    (hd5 : (s.listings lid).lender ≠ s.escrowAddr)
    (hd6 : s.platformWallet ≠ s.escrowAddr) :
    (s.listings lid).isActive = true ∧ 0 < units ∧
    units ≤ (s.listings lid).availableUnits ∧
    (s.listings lid).minDuration ≤ dur ∧ dur ≤ (s.listings lid).maxDuration ∧
    (s.listings lid).pricePerUnit * units * dur < UINT256 ∧
    (s.listings lid).pricePerUnit * units * dur ≤ p ∧
    s'.sessionCounter = s.sessionCounter + 1 ∧
    s'.sessions (s.sessionCounter + 1) =
      ⟨caller, lid, units, now, now + dur,
        (s.listings lid).pricePerUnit * units * dur, true⟩ ∧
    (∀ j, j ≠ s.sessionCounter + 1 → s'.sessions j = s.sessions j) ∧
    s'.listings lid = { s.listings lid with
      availableUnits := (s.listings lid).availableUnits - units } ∧
    (∀ j, j ≠ lid → s'.listings j = s.listings j) ∧
    s'.eth (s.listings lid).lender = s.eth (s.listings lid).lender +
      ((s.listings lid).pricePerUnit * units * dur -
        (s.listings lid).pricePerUnit * units * dur * s.platformFee /
          BASIS_POINTS) ∧
    s'.eth s.platformWallet = s.eth s.platformWallet +
      (s.listings lid).pricePerUnit * units * dur * s.platformFee /
        BASIS_POINTS ∧
    s'.eth caller = s.eth caller - (s.listings lid).pricePerUnit * units * dur ∧
    s'.balances caller (s.listings lid).tokenId =
      s.balances caller (s.listings lid).tokenId + units ∧
    s'.balances s.escrowAddr (s.listings lid).tokenId =
      s.balances s.escrowAddr (s.listings lid).tokenId - units := by
  obtain ⟨hp, hc0, hactv, hu0, huav, hmind, hmaxd, hb1, hb2, hple, hb3,
    sA, s1, s2, s3, hA, hc1, hc2, hc3, htr⟩ := startSession_ok h
  obtain ⟨hpA, rfl⟩ := payValue_ok hA
  obtain ⟨hbnd1, rfl⟩ := contractSend_ok hc1
  split_ifs at hc2 with hf
  simp only [BASIS_POINTS] at hf
  · obtain ⟨hbnd2, rfl⟩ := contractSend_ok hc2
    split_ifs at hc3 with hr
    · obtain ⟨hbnd3, rfl⟩ := contractSend_ok hc3
      obtain ⟨hauthT, hbndT, rfl⟩ := safeTransferFrom_ok htr
      clear h hA hc1 htr hauthT hbndT hbnd1
      try clear hc2
      try clear hbnd2
      try clear hc3
      try clear hbnd3
      refine ⟨hactv, by omega, huav, hmind, hmaxd, hb2, hple,
        ?_, ?_, ?_, ?_, ?_, ?_, ?_, ?_, ?_, ?_⟩ <;>
        simp [updListing, updSession, updBal, updEth, BASIS_POINTS,
          hd1, hd2, hd3, hd4, hd5, hd6, Ne.symm hd1, Ne.symm hd2,
          Ne.symm hd3, Ne.symm hd4, Ne.symm hd5, Ne.symm hd6] <;>
        omega
    · cases hc3
      obtain ⟨hauthT, hbndT, rfl⟩ := safeTransferFrom_ok htr
      clear h hA hc1 htr hauthT hbndT hbnd1
      try clear hc2
      try clear hbnd2
      try clear hc3
      try clear hbnd3
      refine ⟨hactv, by omega, huav, hmind, hmaxd, hb2, hple,
        ?_, ?_, ?_, ?_, ?_, ?_, ?_, ?_, ?_, ?_⟩ <;>
        simp [updListing, updSession, updBal, updEth, BASIS_POINTS,
          hd1, hd2, hd3, hd4, hd5, hd6, Ne.symm hd1, Ne.symm hd2,
          Ne.symm hd3, Ne.symm hd4, Ne.symm hd5, Ne.symm hd6] <;>
        omega
  · cases hc2
    simp only [BASIS_POINTS] at hf
    split_ifs at hc3 with hr
    · obtain ⟨hbnd3, rfl⟩ := contractSend_ok hc3
      obtain ⟨hauthT, hbndT, rfl⟩ := safeTransferFrom_ok htr
      clear h hA hc1 htr hauthT hbndT hbnd1
      try clear hc2
      try clear hbnd2
      try clear hc3
      try clear hbnd3
      refine ⟨hactv, by omega, huav, hmind, hmaxd, hb2, hple,
        ?_, ?_, ?_, ?_, ?_, ?_, ?_, ?_, ?_, ?_⟩ <;>
        simp [updListing, updSession, updBal, updEth, BASIS_POINTS,
          hd1, hd2, hd3, hd4, hd5, hd6, Ne.symm hd1, Ne.symm hd2,
          Ne.symm hd3, Ne.symm hd4, Ne.symm hd5, Ne.symm hd6] <;>
        omega
    · cases hc3
      obtain ⟨hauthT, hbndT, rfl⟩ := safeTransferFrom_ok htr
      clear h hA hc1 htr hauthT hbndT hbnd1
      try clear hc2
      try clear hbnd2
      try clear hc3
      try clear hbnd3
      refine ⟨hactv, by omega, huav, hmind, hmaxd, hb2, hple,
        ?_, ?_, ?_, ?_, ?_, ?_, ?_, ?_, ?_, ?_⟩ <;>
        simp [updListing, updSession, updBal, updEth, BASIS_POINTS,
          hd1, hd2, hd3, hd4, hd5, hd6, Ne.symm hd1, Ne.symm hd2,
          Ne.symm hd3, Ne.symm hd4, Ne.symm hd5, Ne.symm hd6] <;>
        omega

/-- C2 witness: the concrete scenario run — borrower 3 rents 2 units for 7
seconds from listing 1 paying 150 (cost 140) — satisfies the
characterization; its extracted conclusion: the session counter advanced
to 1. -/
theorem C2_startSession_characterization_witness :
    s2.sessionCounter = s1.sessionCounter + 1 :=
  (C2_startSession_characterization s1 s2 3 1 2 7 150 0 (by rfl)
    (by decide) (by decide) (by decide) (by decide) (by decide)
    (by decide)).2.2.2.2.2.2.2.1


/-- C4: for every active listing, `cancelListing` called by its lender
succeeds, sets `active = false`, and ledger-transfers exactly the listing's
current `availableUnits` from engine custody back to the lender; every
other balance entry — in particular the units out on open sessions, which
stay in escrow custody — is unchanged, and no session is touched. -/
theorem C4_cancelListing_returns_available (s : State) (caller : Addr)
    (listingId : Nat)
    (hl : (s.listings listingId).lender = caller)
    (hact : (s.listings listingId).isActive = true)
    (hbal : (s.listings listingId).availableUnits ≤
      s.balances s.escrowAddr (s.listings listingId).tokenId)
    (hne : s.escrowAddr ≠ caller) :
    ∃ s', cancelListing s caller listingId = .ok s' ∧
      (s'.listings listingId).isActive = false ∧
      s'.balances s.escrowAddr (s.listings listingId).tokenId =
        s.balances s.escrowAddr (s.listings listingId).tokenId -
          (s.listings listingId).availableUnits ∧
      s'.balances caller (s.listings listingId).tokenId =
        s.balances caller (s.listings listingId).tokenId +
          (s.listings listingId).availableUnits ∧
      (∀ a t, (a ≠ s.escrowAddr ∧ a ≠ caller) ∨
          t ≠ (s.listings listingId).tokenId →
        s'.balances a t = s.balances a t) ∧
      s'.sessions = s.sessions ∧
      (∀ j, j ≠ listingId → s'.listings j = s.listings j) := by
  have hl' : ¬((s.listings listingId).lender ≠ caller) := by simp [hl]
  have hact' : ¬((s.listings listingId).isActive = false) := by simp [hact]
  by_cases hav : 0 < (s.listings listingId).availableUnits
  · have hrun : cancelListing s caller listingId =
        safeTransferFrom
          (updListing s listingId { s.listings listingId with isActive := false })
          s.escrowAddr s.escrowAddr caller (s.listings listingId).tokenId
          (s.listings listingId).availableUnits := by
      unfold cancelListing
      rw [if_neg hl', if_neg hact', if_pos hav]
      exact rfl
    have htr := safeTransferFrom_sufficient
      (updListing s listingId { s.listings listingId with isActive := false })
      s.escrowAddr s.escrowAddr caller (s.listings listingId).tokenId
      (s.listings listingId).availableUnits (Or.inl rfl)
      (by simpa [updListing] using hbal)
    refine ⟨_, hrun.trans htr, ?_, ?_, ?_, ?_, ?_, ?_⟩
    · simp [updListing]
    · simp [updListing, updBal, hne]
    · simp [updListing, updBal, hne, Ne.symm hne]
    · intro a t hcond
      rcases hcond with ⟨ha1, ha2⟩ | ht
      · simp [updListing, updBal, ha1, ha2]
      · simp [updListing, updBal, ht]
    · simp [updListing]
    · intro j hj
      simp [updListing, updBal, hj]
  · have hav0 : (s.listings listingId).availableUnits = 0 := by omega
    have hrun : cancelListing s caller listingId = .ok
        (updListing s listingId
          { s.listings listingId with isActive := false }) := by
      unfold cancelListing
      rw [if_neg hl', if_neg hact', if_neg hav]
    refine ⟨_, hrun, ?_, ?_, ?_, ?_, ?_, ?_⟩
    · simp [updListing]
    · simp [updListing, hav0]
    · simp [updListing, hav0]
    · intro a t _
      simp [updListing]
    · simp [updListing]
    · intro j hj
      simp [updListing, hj]

/-- C4 witness: in the scenario state `s2` (listing 1 active with 8
available units, 2 out on the open session), the lender's cancel succeeds,
moves exactly 8 units escrow to lender, and leaves the 2 rented units in
custody. -/
theorem C4_cancelListing_returns_available_witness :
    ∃ s', cancelListing s2 2 1 = .ok s' ∧
      (s'.listings 1).isActive = false ∧
      s'.balances s2.escrowAddr (s2.listings 1).tokenId =
        s2.balances s2.escrowAddr (s2.listings 1).tokenId -
          (s2.listings 1).availableUnits ∧
      s'.balances 2 (s2.listings 1).tokenId =
        s2.balances 2 (s2.listings 1).tokenId +
          (s2.listings 1).availableUnits ∧
      (∀ a t, (a ≠ s2.escrowAddr ∧ a ≠ 2) ∨ t ≠ (s2.listings 1).tokenId →
        s'.balances a t = s2.balances a t) ∧
      s'.sessions = s2.sessions ∧
      (∀ j, j ≠ 1 → s'.listings j = s2.listings j) :=
  C4_cancelListing_returns_available s2 2 1 (by rfl) (by rfl)
    (by decide) (by decide)

/-- C5: `createListing` succeeds only when the lender (caller) holds at
least `units` of the batch and has approved the engine as operator, and on
success it moves exactly `units` from the lender into engine custody while
recording the new listing under the next id; and whenever the validations
pass, the engine is approved, but the lender's balance is short, the call
is rejected with `InsufficientBalance` — in the `Except` model of a revert,
no listing is created and no units move. -/
theorem C5_createListing_escrow (s : State) (caller : Addr)
    (tokenId price units minD maxD now : Nat)
    (hne : s.escrowAddr ≠ caller) :
    (∀ s', createListing s caller tokenId price units minD maxD now = .ok s' →
        units ≤ s.balances caller tokenId ∧
        s.approvals caller s.escrowAddr = true ∧
        s'.balances caller tokenId = s.balances caller tokenId - units ∧
        s'.balances s.escrowAddr tokenId =
          s.balances s.escrowAddr tokenId + units ∧
        (∀ a t, (a ≠ s.escrowAddr ∧ a ≠ caller) ∨ t ≠ tokenId →
          s'.balances a t = s.balances a t) ∧
        s'.listingCounter = s.listingCounter + 1 ∧
        s'.listings (s.listingCounter + 1) =
          ⟨caller, tokenId, price, units, units, minD, maxD, now, true⟩) ∧
    (s.paused = false → units ≠ 0 → price ≠ 0 → s.minRentalDuration ≤ minD →
      maxD ≤ s.maxRentalDuration → minD ≤ maxD →
      s.approvals caller s.escrowAddr = true →
      s.balances caller tokenId < units →
      createListing s caller tokenId price units minD maxD now =
        .error .InsufficientBalance) := by
  constructor
  · intro s' h
    obtain ⟨hp, hu, hpr, hmn, hmx, hmm, hauth, hb, rfl⟩ := createListing_ok h
    refine ⟨hb, ?_, ?_, ?_, ?_, by simp [updListing], ?_⟩
    · rcases hauth with h' | h'
      · exact absurd h' hne
      · exact h'
    · simp [updListing, updBal, hne, Ne.symm hne]
    · simp [updListing, updBal, hne, Ne.symm hne]
    · intro a t hcond
      rcases hcond with ⟨ha1, ha2⟩ | ht
      · simp [updListing, updBal, ha1, ha2]
      · simp [updListing, updBal, ht]
    · simp [updListing]
  · intro hp hu hpr hmn hmx hmm happ hshort
    unfold createListing safeTransferFrom
    rw [if_neg (by simp [hp]), if_neg hu, if_neg hpr, if_neg (by omega),
      if_neg (by omega), if_neg (by omega), if_pos (Or.inr happ),
      if_pos hshort]

/-- C5 witness: Scenario D at small scale — creating a listing for 13
units while the lender holds only 12 is rejected with the
insufficient-balance error; the successful direction is exercised on the
scenario state `s0` (12 held, 10 listed). -/
theorem C5_createListing_escrow_witness :
    createListing s0 2 7 10 13 1 1000 0 = .error .InsufficientBalance ∧
      (s1.balances 0 7 = s0.balances 0 7 + 10) :=
  ⟨(C5_createListing_escrow s0 2 7 10 13 1 1000 0 (by decide)).2
      (by rfl) (by decide) (by decide) (by decide) (by decide) (by decide)
      (by rfl) (by decide),
   ((C5_createListing_escrow s0 2 7 10 10 1 1000 0 (by decide)).1 s1
      (by rfl)).2.2.2.1⟩

/-- C8 amended: in the proration-variant `endSession` (the only one of the
two duplicated `endSession` implementations that performs a caller check),
a caller who is neither the session's borrower nor the contract owner is
rejected with the authorization error, with no state change (a revert in
the `Except` model).  The simple-policy `endSession` performs no caller
authorization at all — see the counterexample. -/
theorem C8_amended_endSessionV2_auth (s : State) (caller : Addr)
    (sid now : Nat) (hact : (s.sessions sid).isActive = true)
    (hb : caller ≠ (s.sessions sid).borrower) (ho : caller ≠ s.owner) :
    endSessionV2 s caller sid now = .error .NotAuthorized := by
  unfold endSessionV2
  simp [hact, hb, ho]

/-- C8 witness: the unrelated account 4 cannot close session 1 in the
proration-variant scenario. -/
theorem C8_amended_endSessionV2_auth_witness :
    endSessionV2 z2 4 1 5 = .error .NotAuthorized :=
  C8_amended_endSessionV2_auth z2 4 1 5 (by rfl) (by decide) (by decide)

/-- C8 counterexample: under the simple-policy `endSession` the claim is
false: in the reachable state `s2` the lender (address 2), who is neither
the session's borrower (address 3) nor the contract owner (address 1) nor
any approved operator of the session, successfully closes the borrower's
session — that implementation performs no caller authorization check. -/
theorem C8_counterexample :
    (s2.sessions 1).borrower ≠ 2 ∧ s2.owner ≠ 2 ∧
      endSession s2 2 1 7 = .ok s3x :=
  ⟨by decide, by decide, by rfl⟩

/-- C10: every listing returned by `getActiveListings(offset, limit)` is
active, the result has at most `limit` entries, every element is the
listing of an id in the window `offset + 1 .. min (offset + limit)
listingCounter`, and when `offset ≥ listingCounter` the result is empty. -/
theorem C10_getActiveListings (s : State) (offset limit : Nat) :
    (∀ l ∈ getActiveListings s offset limit, l.isActive = true) ∧
    (getActiveListings s offset limit).length ≤ limit ∧
    (∀ l ∈ getActiveListings s offset limit, ∃ i,
        offset + 1 ≤ i ∧ i ≤ offset + limit ∧ i ≤ s.listingCounter ∧
        l = s.listings i ∧ (s.listings i).isActive = true) ∧
    (s.listingCounter ≤ offset → getActiveListings s offset limit = []) := by
  simp only [getActiveListings]
  refine ⟨?_, ?_, ?_, ?_⟩
  · intro l hl
    obtain ⟨i, hi, rfl⟩ := List.mem_map.mp hl
    exact (List.mem_filter.mp hi).2.symm ▸ by
      simpa using (List.mem_filter.mp hi).2
  · calc _ ≤ (List.range' (offset + 1)
        ((if s.listingCounter < offset + limit then s.listingCounter
          else offset + limit) - offset)).length := by
          rw [List.length_map]; exact List.length_filter_le _ _
      _ ≤ limit := by rw [List.length_range']; split <;> omega
  · intro l hl
    obtain ⟨i, hi, rfl⟩ := List.mem_map.mp hl
    obtain ⟨hir, hia⟩ := List.mem_filter.mp hi
    obtain ⟨hi1, hi2⟩ := List.mem_range'_1.mp hir
    refine ⟨i, hi1, by split at hi2 <;> omega, by split at hi2 <;> omega,
      rfl, by simpa using hia⟩
  · intro hle
    have : (if s.listingCounter < offset + limit then s.listingCounter
        else offset + limit) - offset = 0 := by split <;> omega
    rw [this]
    rfl

/-- C10 witness: in the scenario state `s2` (one active listing, id 1),
the window starting at offset 0 returns exactly listing 1, and an offset at
or past `listingCounter` returns nothing. -/
theorem C10_getActiveListings_witness :
    ((getActiveListings s2 0 5).length ≤ 5) ∧
      getActiveListings s2 9 3 = [] :=
  ⟨(C10_getActiveListings s2 0 5).2.1,
   (C10_getActiveListings s2 9 3).2.2.2 (by decide)⟩

/-- C9 (corrected): at every reachable state of the simple-policy engine,
every listing satisfies `availableUnits ≤ totalUnits`, and every listing
that is still ACTIVE satisfies `totalUnits - availableUnits = openUnits`
(the sum of `unitsBorrowed` over the open sessions referencing it); and
every further successful state-mutating operation preserves both facts.
The accounting equation of the original claim does not extend to cancelled
(inactive) listings, because `endSession` skips the availability restock
when the listing has been cancelled: see the counterexample. -/
theorem C9_amended_reachable_accounting {sI s : State} (h0 : Init sI)
    (h : Reachable sI s) :
    ((∀ lid, (s.listings lid).availableUnits ≤ (s.listings lid).totalUnits) ∧
     (∀ lid, (s.listings lid).isActive = true →
       (s.listings lid).totalUnits - (s.listings lid).availableUnits =
         openUnits s lid)) ∧
    (∀ s', Step s s' →
      (∀ lid, (s'.listings lid).availableUnits ≤ (s'.listings lid).totalUnits) ∧
      (∀ lid, (s'.listings lid).isActive = true →
        (s'.listings lid).totalUnits - (s'.listings lid).availableUnits =
          openUnits s' lid)) := by
  have hI := reachable_inv h0 h
  refine ⟨⟨hI.bound, hI.account⟩, ?_⟩
  intro s' hstep
  have hJ := inv_step hI hstep
  exact ⟨hJ.bound, hJ.account⟩

/-- C9 witness: the invariant evaluated along the concrete run
`s0 → createListing → s1 → startSession → s2`. -/
theorem C9_amended_reachable_accounting_witness :
    ((∀ lid, (s2.listings lid).availableUnits ≤ (s2.listings lid).totalUnits) ∧
     (∀ lid, (s2.listings lid).isActive = true →
       (s2.listings lid).totalUnits - (s2.listings lid).availableUnits =
         openUnits s2 lid)) ∧
    (∀ s', Step s2 s' →
      (∀ lid, (s'.listings lid).availableUnits ≤ (s'.listings lid).totalUnits) ∧
      (∀ lid, (s'.listings lid).isActive = true →
        (s'.listings lid).totalUnits - (s'.listings lid).availableUnits =
          openUnits s' lid)) :=
  C9_amended_reachable_accounting
    ⟨rfl, rfl, fun _ => rfl, fun _ => rfl⟩
    (Relation.ReflTransGen.tail
      (Relation.ReflTransGen.tail Relation.ReflTransGen.refl
        (Step.create s0 s1 2 7 10 10 1 1000 0 rfl))
      (Step.start s1 s2 3 1 2 7 150 0 rfl))

/-- C9 counterexample: along the reachable run list, rent, cancel, close,
the final state has listing 1 with `totalUnits = 10` but `availableUnits =
8` and no open session, so `totalUnits - availableUnits = 2` differs from
the open-session sum `0`: the unqualified accounting equation of the claim
fails on the cancelled listing. -/
theorem C9_counterexample :
    Init s0 ∧ Reachable s0 s3c ∧
    (s3c.listings 1).totalUnits - (s3c.listings 1).availableUnits ≠
      openUnits s3c 1 :=
  ⟨⟨rfl, rfl, fun _ => rfl, fun _ => rfl⟩,
   Relation.ReflTransGen.tail
     (Relation.ReflTransGen.tail
       (Relation.ReflTransGen.tail
         (Relation.ReflTransGen.tail Relation.ReflTransGen.refl
           (Step.create s0 s1 2 7 10 10 1 1000 0 rfl))
         (Step.start s1 s2 3 1 2 7 150 0 rfl))
       (Step.cancel s2 s2c 2 1 rfl))
     (Step.close s2c s3c 3 1 7 rfl),
   by decide⟩

/-- C6: the proration settlement of `endSessionV2` does not behave as
claimed.  On the concrete early close of session 1 at time 5 of its
10-second window (price 1, 2 units, fee 5000 bp, payment 20): with the
contract holding no ETH the call reverts with `ETHTransferFailed`; with the
contract prefunded it succeeds but pays the unused-time refund split (5 to
the lender, 5 to the platform wallet) out of the contract balance, returns
nothing to the borrower, and leaves the platform with a net 15, not the
exact fee share `5000/10000` of the earned amount 10 (which is 5). -/
theorem C6_proration_settlement_bug :
    endSessionV2 z2 3 1 5 = .error .ETHTransferFailed ∧
    endSessionV2 z2b 3 1 5 = .ok z3b ∧
    z3b.eth 3 = z2b.eth 3 ∧
    z3b.eth 2 = z2b.eth 2 + 5 ∧
    z3b.eth 5 = z2b.eth 5 + 5 ∧
    z3b.eth 0 + 10 = z2b.eth 0 ∧
    z3b.eth 5 - z0b.eth 5 ≠
      z0b.platformFee * ((z2b.sessions 1).units *
        (z2b.listings 1).pricePerUnit * 5) / BASIS_POINTS :=
  ⟨rfl, rfl, rfl, by decide, by decide, by decide, by decide⟩

end SubToken
